import Mathlib

/-!
Verification of the `lg` command logger (src/main.rs) against its
natural-language specification.  The Rust source is shallowly embedded:
pure functions become Lean functions, the `tokio::select!` interleaving
loop becomes an explicit step function driven by a schedule of branch
choices, and fallible operations return `Option`/`Except` or are driven
by explicit success flags.
-/

namespace LG

/-- Stream origin of a captured line, `"STDOUT"` / `"STDERR"` in the source. -/
inductive Tag where
  | stdout
  | stderr
deriving DecidableEq, Repr

/-- One item produced by a pipe reader.  `good text` is a line that decoded
as valid UTF-8; `bad` is a byte sequence on which tokio's
`AsyncBufReadExt::lines` / `next_line` reports an `InvalidData` error
(the source propagates that error with the `?` operator at `line?`). -/
inductive Item where
  | good (text : String)
  | bad
deriving DecidableEq, Repr

/-- A scheduling decision of `tokio::select!`: which of the two enabled
branches (stdout reader / stderr reader) completes first at one loop
iteration.  The schedule abstracts OS delivery timing. -/
inductive Pick where
  | out
  | err
deriving DecidableEq, Repr

/-- State of the interleaving loop in `run_and_log_combined` /
`run_and_log_split`: the remaining items of each pipe and the two
`out_done` / `err_done` flags. -/
structure LState where
  out : List Item
  err : List Item
  outDone : Bool
  errDone : Bool
deriving DecidableEq, Repr

/-- Result of running the interleaving loop: `done` when the loop hit the
`else => break` arm (both streams closed), `failed` when a read returned
an error and `line?` returned early from the function, `stalled` when the
given schedule was too short to finish the loop. Each carries the
dispatched `(tag, text)` events in order. -/
inductive LoopRes where
  | done (events : List (Tag × String))
  | failed (events : List (Tag × String))
  | stalled (events : List (Tag × String)) (st : LState)
deriving DecidableEq, Repr

/-- Prepend a dispatched event to a loop result. -/
def LoopRes.consEv (e : Tag × String) : LoopRes → LoopRes
  | .done evs => .done (e :: evs)
  | .failed evs => .failed (e :: evs)
  | .stalled evs st => .stalled (e :: evs) st

/-- The `loop { tokio::select! { ... } }` of `run_and_log_combined` and
`run_and_log_split` (both share this structure; only the sink routing
differs).  At each iteration: if both streams are done the `else` arm
breaks; otherwise the schedule picks a ready enabled branch
(a branch guarded by `if !out_done` is disabled once its stream is done
and a pick of a disabled branch cannot fire, modelled as a no-op);
`next_line()` yields the next item, `None` at end-of-stream sets the
done flag, and a decode error returns from the function early. -/
def execLoop : List Pick → LState → LoopRes
  | sched, st =>
    if st.outDone && st.errDone then
      .done []
    else
      match sched with
      | [] => .stalled [] st
      | .out :: rest =>
        if st.outDone then
          execLoop rest st
        else
          match st.out with
          | [] => execLoop rest { st with outDone := true }
          | .bad :: _ => .failed []
          | .good l :: ls => LoopRes.consEv (Tag.stdout, l) (execLoop rest { st with out := ls })
      | .err :: rest =>
        if st.errDone then
          execLoop rest st
        else
          match st.err with
          | [] => execLoop rest { st with errDone := true }
          | .bad :: _ => .failed []
          | .good l :: ls => LoopRes.consEv (Tag.stderr, l) (execLoop rest { st with err := ls })

/-- The subsequence of dispatched events carrying a given stream tag,
projected to the line texts. -/
def projTag (t : Tag) (evs : List (Tag × String)) : List String :=
  (evs.filter (fun e => decide (e.1 = t))).map (fun e => e.2)

/-- The log-line formatter `write_line` of the source, its clock read
externalized: `plain_lines` writes the text with a terminating newline
only; otherwise with `ts_each` the source formats `Local::now()` with
`"%H:%M:%S%.3f"` (passed here as the already-formatted argument `ts`)
and brackets it with the stream tag; otherwise only the stream tag. -/
def write_line (stream line ts : String) (ts_each plain_lines : Bool) : String :=
  if plain_lines then
    line ++ "\n"
  else if ts_each then
    "[" ++ ts ++ "][" ++ stream ++ "] " ++ line ++ "\n"
  else
    "[" ++ stream ++ "] " ++ line ++ "\n"

/-- Child exit status as observed by `child.wait()`: `some c` when the
child exited normally with code `c`, `none` when terminated by a signal
(no code available).  The source takes `status.code().unwrap_or(1)`. -/
def childCode (status : Option Int) : Int :=
  status.getD 1

/-- Failure injection points of one run, in the order the source reaches
them: sink creation (`open_writer` / `File::create`), spawning the
child, the pipe reads (`line?`), and the trailer/flush writes performed
after the child has been awaited. -/
structure RunEnv where
  sinkCreateOk : Bool
  spawnOk : Bool
  readOk : Bool
  status : Option Int
  trailerWriteOk : Bool
deriving DecidableEq, Repr

/-- The error and exit-code flow of the `run()` pipeline: each fallible
step propagates failure out of `run` via the `?` operator; when all
succeed, the child's exit code `status.code().unwrap_or(1)` is the `Ok`
payload. -/
def runModel (env : RunEnv) : Except Unit Int :=
  if !env.sinkCreateOk then Except.error ()
  else if !env.spawnOk then Except.error ()
  else if !env.readOk then Except.error ()
  else
    let code := childCode env.status
    if !env.trailerWriteOk then Except.error ()
    else Except.ok code

/-- The `main` wrapper of the source:
`let (exit_code, _) = run().await.unwrap_or((1, PathBuf::new()));`
followed by `std::process::exit(exit_code)`. -/
def mainExitCode (env : RunEnv) : Int :=
  match runModel env with
  | Except.ok code => code
  | Except.error _ => 1

/-- Compression policy of the source (`enum Compress { None, Gz }`). -/
inductive Compress where
  | none
  | gz
deriving DecidableEq, Repr

/-- The `--compress` CLI override in `run()`: `"gz"` selects gzip,
`"none"` and the empty string select no compression, and any other value
prints `Unknown --compress value '{value}', using 'none'` to stderr
(returned here as the second component) and falls back to no
compression; the override itself never fails. -/
def parseCompressArg (c : String) : Compress × Option String :=
  match c with
  | "gz" => (Compress.gz, Option.none)
  | "none" => (Compress.none, Option.none)
  | "" => (Compress.none, Option.none)
  | other => (Compress.none, some ("Unknown --compress value '" ++ other ++ "', using 'none'"))

/-- The predicate `char::is_ascii_alphanumeric` of the Rust standard
library, as used by `sanitize_component`. -/
def isAsciiAlphanumeric (c : Char) : Bool :=
  ('0' ≤ c && c ≤ '9') || ('A' ≤ c && c ≤ 'Z') || ('a' ≤ c && c ≤ 'z')

/-- One non-overlapping left-to-right pass of `str::replace(pat, rep)`
over a character list, exactly as the Rust standard library scans.  The
fuel bounds the number of scanning steps; every step consumes at least
one input character, so any fuel of at least `s.length` computes the
full replacement. -/
def replaceAllF (pat rep : List Char) : Nat → List Char → List Char
  | _, [] => []
  | 0, s => s
  | n + 1, c :: rest =>
    if !pat.isEmpty && pat.isPrefixOf (c :: rest) then
      rep ++ replaceAllF pat rep n ((c :: rest).drop pat.length)
    else
      c :: replaceAllF pat rep n rest

/-- `str::replace(pat, rep)` on strings, with sufficient fuel. -/
def replaceStr (s pat rep : String) : String :=
  String.mk (replaceAllF pat.data rep.data s.data.length s.data)

/-- The Rust check `out.contains("__")`. -/
def hasUU : List Char → Bool
  | c1 :: c2 :: rest => (c1 == '_' && c2 == '_') || hasUU (c2 :: rest)
  | _ => false

/-- The loop `while out.contains("__") { out = out.replace("__", "_"); }`
shared by `sanitize_component` and `render_template`.  The fuel bounds
the number of loop iterations; every iteration that fires strictly
shortens the string, so any fuel of at least `s.length` reaches the
loop's exit condition. -/
def collapseUUF : Nat → List Char → List Char
  | 0, s => s
  | n + 1, s =>
    if hasUU s then collapseUUF n (replaceAllF ['_', '_'] ['_'] s.length s) else s

/-- Rust `str::trim_matches(p)`: strip matching characters from both
ends of the string. -/
def trimMatches (p : Char → Bool) (s : List Char) : List Char :=
  ((s.dropWhile p).reverse.dropWhile p).reverse

/-- The source's `sanitize_component`: replace every character that is
not ASCII-alphanumeric, `-`, `_` or `.` by `_`, collapse `__` runs, and
trim `_` from both ends. -/
def sanitize_component (s : String) : String :=
  let mapped := s.data.map (fun ch =>
    if isAsciiAlphanumeric ch || ch == '-' || ch == '_' || ch == '.' then ch else '_')
  String.mk (trimMatches (fun c => c == '_') (collapseUUF mapped.length mapped))

/-- The source's `render_template`: substitute the placeholder set in
the source's fixed order, substitute `\x7bexit_code\x7d` with the code
when known and the literal `NA` otherwise, replace `..` by `.` in one
pass, collapse `__` runs, and trim `_` and `.` from both ends. -/
def render_template (tpl cmd args date time ts : String) (exit_code : Option Int)
    (hostname cwd : String) (sanitize include_args_in_name : Bool) : String :=
  let args_used0 := if include_args_in_name then args else ""
  let args_used := if sanitize then sanitize_component args_used0 else args_used0
  let cmd_fragment := if sanitize then sanitize_component cmd else cmd
  let hostname_fragment := if sanitize then sanitize_component hostname else hostname
  let cwd_fragment := if sanitize then sanitize_component cwd else cwd
  let s1 := replaceStr tpl "\x7bcmd\x7d" cmd_fragment
  let s2 := replaceStr s1 "\x7bargs\x7d" args_used
  let s3 := replaceStr s2 "\x7bdate\x7d" date
  let s4 := replaceStr s3 "\x7btime\x7d" time
  let s5 := replaceStr s4 "\x7bts\x7d" ts
  let s6 := replaceStr s5 "\x7bhostname\x7d" hostname_fragment
  let s7 := replaceStr s6 "\x7bcwd\x7d" cwd_fragment
  let s8 :=
    match exit_code with
    | some code => replaceStr s7 "\x7bexit_code\x7d" (toString code)
    | Option.none => replaceStr s7 "\x7bexit_code\x7d" "NA"
  let s9 := replaceStr s8 ".." "."
  let s10 := String.mk (collapseUUF s9.data.length s9.data)
  String.mk (trimMatches (fun c => c == '_' || c == '.') s10.data)

/-- Rust `str::contains(pat)` for the non-empty patterns used here. -/
def containsSub (pat : List Char) : List Char → Bool
  | [] => pat.isEmpty
  | c :: rest => pat.isPrefixOf (c :: rest) || containsSub pat rest

/-- The final path component (the part after the last `/`), as Rust's
`Path` sees it for the file names at play here. -/
def lastComponent (f : List Char) : List Char :=
  (f.reverse.takeWhile (fun c => c != '/')).reverse

/-- Rust `Path::extension` on a file name: the portion after the last
`.`, unless there is no `.`, or the only `.` is the leading one. -/
def rustExtension (f : List Char) : Option (List Char) :=
  let revExt := f.reverse.takeWhile (fun c => c != '.')
  if revExt.length = f.length then Option.none
  else if revExt.length + 1 = f.length then Option.none
  else some revExt.reverse

/-- Rust `PathBuf::set_extension` on a file name: replace the current
extension (the part after the last `.`) by `e`, or append `.e` when
there is none. -/
def setExtension (f : List Char) (e : List Char) : List Char :=
  match rustExtension f with
  | Option.none => f ++ '.' :: e
  | some _ =>
    let stem := List.reverse (List.drop 1 (f.reverse.dropWhile (fun c => c != '.')))
    stem ++ '.' :: e

/-- Result of the path preparation in `run()`: the name the sink is
opened under, the `needs_rename` flag, and the base name after the
extension fixup. -/
structure PreparedName where
  logName : String
  needsRename : Bool
  baseName : String
deriving DecidableEq, Repr

/-- Name preparation of `run()` for combined (non-split) mode, lines
190-237 of the source: render the template with the exit code unknown;
when the template mentions `\x7bexit_code\x7d`, divert to the hidden
temporary name `.\x7bbase\x7d.partial`; then, when the base name has no
extension, append `.log` to it — note that this step reassigns
`log_path` to the visible base name, discarding the temporary-path
diversion — and finally fix up the extension for gzip sinks. -/
def prepareCombinedName (tpl cmd args date time ts hostname cwd : String)
    (sanitize include_args_in_name : Bool) (compress : Compress) : PreparedName :=
  let base0 := render_template tpl cmd args date time ts Option.none hostname cwd
    sanitize include_args_in_name
  let needs := containsSub ("\x7bexit_code\x7d".data) tpl.data
  let log0 := if needs then "." ++ base0 ++ ".partial" else base0
  let noExt := (rustExtension (lastComponent base0.data)).isNone
  let base1 := if noExt then base0 ++ ".log" else base0
  let log1 := if noExt then base1 else log0
  let log2 :=
    if compress = Compress.gz && !(".gz".data.isSuffixOf log1.data) then
      let extStr := (rustExtension (lastComponent log1.data)).getD ("log.".data)
      String.mk (setExtension log1.data (extStr ++ "gz".data))
    else log1
  ⟨log2, needs, base1⟩

/-- One in-memory directory: an association of file names to contents. -/
abbrev FS := List (String × String)

/-- Content of a file, if present. -/
def fsLookup (fs : FS) (p : String) : Option String :=
  match fs with
  | [] => Option.none
  | (q, c) :: rest => if q = p then some c else fsLookup rest p

/-- Remove a file from the directory. -/
def fsRemove (fs : FS) (p : String) : FS :=
  match fs with
  | [] => []
  | (q, c) :: rest => if q = p then fsRemove rest p else (q, c) :: fsRemove rest p

/-- A successful `fs::rename(src, dst)`: move the content of `src` to
`dst`, overwriting any existing `dst`. -/
def fsRename (fs : FS) (src dst : String) : FS :=
  match fsLookup fs src with
  | Option.none => fs
  | some c => (dst, c) :: fsRemove (fsRemove fs src) dst

/-- The finalize step of `run()`: the rename result is discarded
(`let _ = fs::rename(path_written, final_path);`), so a failed rename
leaves the directory untouched; the exit code `run` returns was computed
from the child's status before this step and is unaffected either way. -/
def finalizeRun (fs : FS) (src dst : String) (renameOk : Bool) (status : Option Int) :
    Int × FS :=
  (childCode status, if renameOk then fsRename fs src dst else fs)

/-- One externally visible action of a run function on its sinks and the
child process, listed in program order.  Sink 0 is the combined (or
stdout) sink; sink 1 is the stderr sink of split mode. -/
inductive Act where
  | writeHeader (sink : Nat)
  | spawn
  | writeLine (sink : Nat) (tag : Tag) (text : String)
  | waitChild
  | writeTrailer (sink : Nat) (code : Int)
  | flushSink (sink : Nat)
deriving DecidableEq, Repr

/-- Sink routing of `run_and_log_combined`: both streams feed sink 0. -/
def combinedSink (_ : Tag) : Nat := 0

/-- Sink routing of `run_and_log_split`: stdout feeds the `.out.log`
sink 0, stderr the `.err.log` sink 1. -/
def splitSink : Tag → Nat
  | Tag.stdout => 0
  | Tag.stderr => 1

/-- Trace of `run_and_log_combined`: header, spawn, the dispatched line
writes, and — only when the loop broke with both streams at
end-of-stream — `child.wait()`, the exit-code trailer and the flush.  A
failed read returns from the function before `child.wait()` is ever
reached. -/
def combinedTrace (sched : List Pick) (outI errI : List Item) (status : Option Int) :
    List Act :=
  [Act.writeHeader 0, Act.spawn] ++
    match execLoop sched ⟨outI, errI, false, false⟩ with
    | LoopRes.done evs =>
        evs.map (fun e => Act.writeLine (combinedSink e.1) e.1 e.2) ++
          [Act.waitChild, Act.writeTrailer 0 (childCode status), Act.flushSink 0]
    | LoopRes.failed evs => evs.map (fun e => Act.writeLine (combinedSink e.1) e.1 e.2)
    | LoopRes.stalled evs _ => evs.map (fun e => Act.writeLine (combinedSink e.1) e.1 e.2)

/-- Trace of `run_and_log_split`: headers to both sinks, spawn, the
routed line writes, and after the loop `child.wait()`, one trailer per
sink and both flushes. -/
def splitTrace (sched : List Pick) (outI errI : List Item) (status : Option Int) :
    List Act :=
  [Act.writeHeader 0, Act.writeHeader 1, Act.spawn] ++
    match execLoop sched ⟨outI, errI, false, false⟩ with
    | LoopRes.done evs =>
        evs.map (fun e => Act.writeLine (splitSink e.1) e.1 e.2) ++
          [Act.waitChild, Act.writeTrailer 0 (childCode status),
            Act.writeTrailer 1 (childCode status), Act.flushSink 0, Act.flushSink 1]
    | LoopRes.failed evs => evs.map (fun e => Act.writeLine (splitSink e.1) e.1 e.2)
    | LoopRes.stalled evs _ => evs.map (fun e => Act.writeLine (splitSink e.1) e.1 e.2)

/-- Recognizer for the `child.wait()` action. -/
def isWait : Act → Bool
  | Act.waitChild => true
  | _ => false

/-- Recognizer for the exit-code trailer written to a given sink. -/
def isTrailer (s : Nat) : Act → Bool
  | Act.writeTrailer s' _ => s' == s
  | _ => false

/-- Recognizer for a dispatched line write. -/
def isLineWrite : Act → Bool
  | Act.writeLine _ _ _ => true
  | _ => false

/-- A gzip member stream as flate2's `GzEncoder` produces it.
Modelled from the spec: flate2 is an external dependency, missing from
the sources; its contract is that a stream whose finish step ran
(`GzEncoder`'s `Drop` implementation calls `try_finish`) decompresses to
exactly the bytes that were written into the encoder, while a stream
never finished is truncated and unreadable. -/
inductive GzStream where
  | complete (content : String)
  | truncated (content : String)
deriving DecidableEq, Repr

/-- Decompression of a gzip stream, the inverse of the encoder contract
above: complete streams decode to their content, truncated ones fail. -/
def gzDecode : GzStream → Option String
  | GzStream.complete c => some c
  | GzStream.truncated _ => Option.none

/-- One sink writer as built by `open_writer`: the selected variant, the
bytes appended so far, and whether the compressor's finish step ran. -/
structure Writer where
  mode : Compress
  buf : String
  finished : Bool
deriving DecidableEq, Repr

/-- The `open_writer` function: create the file and wrap it in either a
plain `BufWriter` or a `GzEncoder` with the default compression level. -/
def open_writer (compress : Compress) : Writer :=
  ⟨compress, "", false⟩

/-- Append formatted bytes to the sink (`write_header` / `write_line` /
the trailer `writeln!`). -/
def Writer.append (w : Writer) (s : String) : Writer :=
  { w with buf := w.buf ++ s }

/-- The writer going out of scope at the end of
`run_and_log_combined` / `run_and_log_split`, after `flush()?`: dropping
a `GzEncoder` runs its `try_finish` step before the underlying `File` is
released, so the gzip trailer lands before the file is closed. -/
def Writer.closeOnDrop (w : Writer) : Writer :=
  match w.mode with
  | Compress.gz => { w with finished := true }
  | Compress.none => w

/-- The on-disk content of a sink file. -/
inductive FileContent where
  | plainFile (content : String)
  | gzFile (stream : GzStream)
deriving DecidableEq, Repr

/-- The on-disk content once the writer has been released: plain sinks
hold the appended bytes verbatim; gzip sinks hold a complete stream only
when the finish step ran. -/
def Writer.fileContent (w : Writer) : FileContent :=
  match w.mode with
  | Compress.none => FileContent.plainFile w.buf
  | Compress.gz =>
    FileContent.gzFile (if w.finished then GzStream.complete w.buf else GzStream.truncated w.buf)

/-- Reading a sink file back: plain files read as-is, gzip files are
decompressed. -/
def readBack : FileContent → Option String
  | FileContent.plainFile c => some c
  | FileContent.gzFile g => gzDecode g

/-- The printed stream tag (`"STDOUT"` / `"STDERR"`). -/
def tagText : Tag → String
  | Tag.stdout => "STDOUT"
  | Tag.stderr => "STDERR"

/-- The header block of `write_header`: marker line, command, arguments
(omitted when empty), date and time, working directory, hostname,
optional one line per environment variable, and the begin-output
delimiter. -/
def headerBytes (cmd args cwd date_s time_s host : String)
    (log_env : Bool) (envs : List (String × String)) : String :=
  "# lg log\n" ++
    "cmd: " ++ cmd ++ "\n" ++
    (if args = "" then "" else "args: " ++ args ++ "\n") ++
    "date: " ++ date_s ++ " " ++ time_s ++ "\n" ++
    "cwd: " ++ cwd ++ "\n" ++
    "host: " ++ host ++ "\n" ++
    (if log_env then String.join (envs.map (fun kv => "env[" ++ kv.1 ++ "]=" ++ kv.2 ++ "\n"))
      else "") ++
    "----- BEGIN OUTPUT -----\n"

/-- Bytes appended to a sink for a sequence of dispatched events, each
formatted by `write_line`; `tsAt i` is the wall-clock string read while
the i-th line is written. -/
def eventBytes (tsAt : Nat → String) (ts_each plain_lines : Bool)
    (evs : List (Tag × String)) : String :=
  String.join (evs.enum.map (fun p =>
    write_line (tagText p.2.1) p.2.2 (tsAt p.1) ts_each plain_lines))

/-- The exit-code trailer bytes:
`writeln!(w, "\n[exit_code] {}", code)`. -/
def trailerBytes (code : Int) : String :=
  "\n[exit_code] " ++ toString code ++ "\n"

/-- One whole combined run against a sink of the given compression mode:
open the writer, append the header, the formatted line events and the
exit-code trailer, flush, and release the writer. -/
def runCombinedSink (compress : Compress) (cmd args cwd date_s time_s host : String)
    (log_env : Bool) (envs : List (String × String)) (tsAt : Nat → String)
    (ts_each plain_lines : Bool) (evs : List (Tag × String)) (code : Int) : Writer :=
  ((((open_writer compress).append
        (headerBytes cmd args cwd date_s time_s host log_env envs)).append
      (eventBytes tsAt ts_each plain_lines evs)).append
    (trailerBytes code)).closeOnDrop

theorem consEv_eq_done {e : Tag × String} {r : LoopRes} {evs : List (Tag × String)} :
    LoopRes.consEv e r = LoopRes.done evs ↔
      ∃ evs0, r = LoopRes.done evs0 ∧ evs = e :: evs0 := by
  cases r with
  | done evs0 =>
    constructor
    · intro h
      exact ⟨evs0, rfl, (LoopRes.done.injEq _ _ ▸ h).symm⟩
    · rintro ⟨evs1, h1, h2⟩
      cases h1
      simp [LoopRes.consEv, h2]
  | failed evs0 => simp [LoopRes.consEv]
  | stalled evs0 st => simp [LoopRes.consEv]

theorem projTag_cons_same (t : Tag) (x : String) (evs : List (Tag × String)) :
    projTag t ((t, x) :: evs) = x :: projTag t evs := by
  simp [projTag]

theorem projTag_cons_other {t t' : Tag} (h : t' ≠ t) (x : String) (evs : List (Tag × String)) :
    projTag t ((t', x) :: evs) = projTag t evs := by
  simp [projTag, h]

/-- Core invariant of the interleaving loop on streams of valid lines:
whenever the loop reaches the `break` arm, the dispatched events,
projected to each stream tag, are exactly that stream's lines in their
original order. -/
theorem execLoop_done_proj :
    ∀ (sched : List Pick) (outs errs : List String) (od ed : Bool),
      (od = true → outs = []) → (ed = true → errs = []) →
      ∀ evs, execLoop sched ⟨outs.map Item.good, errs.map Item.good, od, ed⟩ = LoopRes.done evs →
        projTag Tag.stdout evs = outs ∧ projTag Tag.stderr evs = errs := by
  intro sched
  induction sched with
  | nil =>
    intro outs errs od ed hod hed evs h
    rw [execLoop.eq_def] at h
    cases od with
    | true =>
      cases ed with
      | true =>
        simp only [Bool.and_self, if_true] at h
        cases h
        simp [hod rfl, hed rfl, projTag]
      | false => simp at h
    | false => simp at h
  | cons p rest ih =>
    intro outs errs od ed hod hed evs h
    rw [execLoop.eq_def] at h
    cases od with
    | true =>
      cases ed with
      | true =>
        simp only [Bool.and_self, if_true] at h
        cases h
        simp [hod rfl, hed rfl, projTag]
      | false =>
        simp only [Bool.and_false, Bool.false_eq_true, if_false] at h
        cases p with
        | out =>
          simp only [if_pos rfl] at h
          exact ih outs errs true false hod hed evs h
        | err =>
          simp only [Bool.false_eq_true, if_false] at h
          cases errs with
          | nil =>
            simp only [List.map_nil] at h
            exact ih outs [] true true hod (fun _ => rfl) evs h
          | cons e es =>
            simp only [List.map_cons] at h
            rw [consEv_eq_done] at h
            obtain ⟨evs0, h0, hevs⟩ := h
            obtain ⟨h1, h2⟩ := ih outs es true false hod (by intro hf; cases hf) evs0 h0
            subst hevs
            constructor
            · rw [projTag_cons_other (by intro hf; cases hf), h1]
            · rw [projTag_cons_same, h2]
    | false =>
      cases p with
      | out =>
        simp only [Bool.false_and, Bool.false_eq_true, if_false] at h
        cases outs with
        | nil =>
          simp only [List.map_nil] at h
          exact ih [] errs true ed (fun _ => rfl) hed evs h
        | cons o os =>
          simp only [List.map_cons] at h
          rw [consEv_eq_done] at h
          obtain ⟨evs0, h0, hevs⟩ := h
          obtain ⟨h1, h2⟩ := ih os errs false ed (by intro hf; cases hf) hed evs0 h0
          subst hevs
          constructor
          · rw [projTag_cons_same, h1]
          · rw [projTag_cons_other (by intro hf; cases hf), h2]
      | err =>
        simp only [Bool.false_and, Bool.false_eq_true, if_false] at h
        cases ed with
        | true =>
          simp only [if_pos rfl] at h
          exact ih outs errs false true hod hed evs h
        | false =>
          simp only [Bool.false_eq_true, if_false] at h
          cases errs with
          | nil =>
            simp only [List.map_nil] at h
            exact ih outs [] false true hod (fun _ => rfl) evs h
          | cons e es =>
            simp only [List.map_cons] at h
            rw [consEv_eq_done] at h
            obtain ⟨evs0, h0, hevs⟩ := h
            obtain ⟨h1, h2⟩ := ih outs es false false hod (by intro hf; cases hf) evs0 h0
            subst hevs
            constructor
            · rw [projTag_cons_other (by intro hf; cases hf), h1]
            · rw [projTag_cons_same, h2]

/-- Invariant of the interleaving loop in the presence of an invalid
UTF-8 line: the `break` arm (normal completion) is unreachable, because a
stream can only be marked done after being drained past all its items,
and polling the invalid item returns early from the function. -/
theorem execLoop_bad_not_done :
    ∀ (sched : List Pick) (outI errI : List Item) (od ed : Bool),
      (od = true → outI = []) → (ed = true → errI = []) →
      (Item.bad ∈ outI ∨ Item.bad ∈ errI) →
      ∀ evs, execLoop sched ⟨outI, errI, od, ed⟩ ≠ LoopRes.done evs := by
  intro sched
  induction sched with
  | nil =>
    intro outI errI od ed hod hed hbad evs h
    rw [execLoop.eq_def] at h
    cases od with
    | true =>
      cases ed with
      | true =>
        rw [hod rfl, hed rfl] at hbad
        simp at hbad
      | false => simp at h
    | false => simp at h
  | cons p rest ih =>
    intro outI errI od ed hod hed hbad evs h
    rw [execLoop.eq_def] at h
    cases od with
    | true =>
      cases ed with
      | true =>
        rw [hod rfl, hed rfl] at hbad
        simp at hbad
      | false =>
        simp only [Bool.and_false, Bool.false_eq_true, if_false] at h
        cases p with
        | out =>
          simp only [if_pos rfl] at h
          exact ih outI errI true false hod hed hbad evs h
        | err =>
          simp only [Bool.false_eq_true, if_false] at h
          cases errI with
          | nil =>
            rcases hbad with hb | hb
            · rw [hod rfl] at hb
              simp at hb
            · simp at hb
          | cons i is =>
            cases i with
            | bad => simp at h
            | good l =>
              rcases hbad with hb | hb
              · rw [hod rfl] at hb
                simp at hb
              · have hb' : Item.bad ∈ is := by
                  rcases List.mem_cons.mp hb with h0 | h0
                  · cases h0
                  · exact h0
                rw [consEv_eq_done] at h
                obtain ⟨evs0, h0, _⟩ := h
                exact ih outI is true false hod (by intro hf; cases hf) (Or.inr hb') evs0 h0
    | false =>
      cases p with
      | out =>
        simp only [Bool.false_and, Bool.false_eq_true, if_false] at h
        cases outI with
        | nil =>
          rcases hbad with hb | hb
          · simp at hb
          · exact ih [] errI true ed (fun _ => rfl) hed (Or.inr hb) evs h
        | cons i is =>
          cases i with
          | bad => simp at h
          | good l =>
            rw [consEv_eq_done] at h
            obtain ⟨evs0, h0, _⟩ := h
            have hbad' : Item.bad ∈ is ∨ Item.bad ∈ errI := by
              rcases hbad with hb | hb
              · rcases List.mem_cons.mp hb with h1 | h1
                · cases h1
                · exact Or.inl h1
              · exact Or.inr hb
            exact ih is errI false ed (by intro hf; cases hf) hed hbad' evs0 h0
      | err =>
        simp only [Bool.false_and, Bool.false_eq_true, if_false] at h
        cases ed with
        | true =>
          simp only [if_pos rfl] at h
          exact ih outI errI false true hod hed hbad evs h
        | false =>
          simp only [Bool.false_eq_true, if_false] at h
          cases errI with
          | nil =>
            rcases hbad with hb | hb
            · exact ih outI [] false true hod (fun _ => rfl) (Or.inl hb) evs h
            · simp at hb
          | cons i is =>
            cases i with
            | bad => simp at h
            | good l =>
              rw [consEv_eq_done] at h
              obtain ⟨evs0, h0, _⟩ := h
              have hbad' : Item.bad ∈ outI ∨ Item.bad ∈ is := by
                rcases hbad with hb | hb
                · exact Or.inl hb
                · rcases List.mem_cons.mp hb with h1 | h1
                  · cases h1
                  · exact Or.inr h1
              exact ih outI is false false hod (by intro hf; cases hf) hbad' evs0 h0

/-- A list of line-write actions contains no action matched by a
recognizer that rejects every line write. -/
theorem countP_lineMap_zero (p : Act → Bool)
    (hp : ∀ s t x, p (Act.writeLine s t x) = false) (f : Tag → Nat)
    (evs : List (Tag × String)) :
    (evs.map (fun e => Act.writeLine (f e.1) e.1 e.2)).countP p = 0 := by
  rw [List.countP_eq_zero]
  intro a ha
  rcases List.mem_map.mp ha with ⟨e, _, rfl⟩
  simp [hp]

/-- C1: every line the child emits on stdout or stderr is dispatched by
the interleaving loop exactly once and in per-stream order — whenever a
schedule of select decisions drives the loop to its break arm (both
streams closed), the subsequence of dispatched events tagged STDOUT
equals the child's stdout line sequence in original order, and likewise
for STDERR; by construction of `execLoop`, a stream is marked closed on
end-of-stream, a closed stream is excluded from further waits, and the
loop breaks only once both are closed. -/
theorem c1_per_stream_dispatch (sout serr : List String) (sched : List Pick)
    (evs : List (Tag × String))
    (h : execLoop sched ⟨sout.map Item.good, serr.map Item.good, false, false⟩ =
      LoopRes.done evs) :
    projTag Tag.stdout evs = sout ∧ projTag Tag.stderr evs = serr :=
  execLoop_done_proj sched sout serr false false (by intro hf; cases hf)
    (by intro hf; cases hf) evs h

/-- Witness for C1: a concrete three-line run under a concrete schedule. -/
theorem c1_witness :
    projTag Tag.stdout [(Tag.stdout, "a"), (Tag.stderr, "x"), (Tag.stdout, "b")] = ["a", "b"] ∧
    projTag Tag.stderr [(Tag.stdout, "a"), (Tag.stderr, "x"), (Tag.stdout, "b")] = ["x"] :=
  c1_per_stream_dispatch ["a", "b"] ["x"] [Pick.out, Pick.err, Pick.out, Pick.err, Pick.out]
    [(Tag.stdout, "a"), (Tag.stderr, "x"), (Tag.stdout, "b")] (by decide)

/-- C2: `write_line` produces, in plain-line mode, the text unchanged
plus a terminating newline; with per-line timestamps the bracketed
timestamp and stream tag followed by the text; and otherwise the
bracketed stream tag followed by the text. -/
theorem c2_line_format (stream line ts : String) (ts_each : Bool) :
    write_line stream line ts ts_each true = line ++ "\n" ∧
    write_line stream line ts true false =
      "[" ++ ts ++ "][" ++ stream ++ "] " ++ line ++ "\n" ∧
    write_line stream line ts false false = "[" ++ stream ++ "] " ++ line ++ "\n" :=
  ⟨rfl, rfl, rfl⟩

/-- C3: when a run completes without a logging error, the wrapper's own
exit code equals the child's exit code for a normal child exit, and is
the fixed fallback 1 when the child's status carries no code (killed by
a signal). -/
theorem c3_exit_passthrough (env : RunEnv)
    (h1 : env.sinkCreateOk = true) (h2 : env.spawnOk = true)
    (h3 : env.readOk = true) (h4 : env.trailerWriteOk = true) :
    (∀ c : Int, env.status = some c → mainExitCode env = c) ∧
    (env.status = none → mainExitCode env = 1) := by
  constructor
  · intro c hc
    simp [mainExitCode, runModel, h1, h2, h3, h4, childCode, hc]
  · intro hc
    simp [mainExitCode, runModel, h1, h2, h3, h4, childCode, hc]

/-- Witness for C3: a clean run whose child exits with code 37. -/
theorem c3_witness : mainExitCode ⟨true, true, true, some 37, true⟩ = 37 :=
  (c3_exit_passthrough ⟨true, true, true, some 37, true⟩ rfl rfl rfl rfl).1 37 rfl

/-- C4 counterexample: when the child has already exited normally with
code 1 and the trailer write then fails, the error unwinds and the
wrapper exits with code 1 — exactly the child's own exit code, so the
failure exit code is not distinct from the child's as the claim
requires. -/
theorem c4_counterexample :
    runModel ⟨true, true, true, some 1, false⟩ = Except.error () ∧
    mainExitCode ⟨true, true, true, some 1, false⟩ = 1 ∧
    childCode (some 1) = 1 :=
  ⟨rfl, rfl, rfl⟩

/-- C4 (amended): every setup, capture, or write error unwinds to the
top level and the wrapper exits with the fixed non-zero code 1, a code
that may coincide with the child's own exit code. -/
theorem c4_amended (env : RunEnv) (h : runModel env = Except.error ()) :
    mainExitCode env = 1 ∧ mainExitCode env ≠ 0 := by
  simp [mainExitCode, h]

/-- Witness for C4 (amended): sink creation fails. -/
theorem c4_witness :
    mainExitCode ⟨false, true, true, none, true⟩ = 1 ∧
    mainExitCode ⟨false, true, true, none, true⟩ ≠ 0 :=
  c4_amended ⟨false, true, true, none, true⟩ rfl

/-- C5: the claim fails on the code.  With the filename template
`\x7bcmd\x7d_\x7bexit_code\x7d` and command `echo`, the rendered base
name `echo_NA` has no extension, so the extension fixup in `run()`
reassigns `log_path` from the hidden temporary `.echo_NA.partial` to the
visible `echo_NA.log`, and the log is first written to a visible path
even though the template contains the exit-code placeholder.  The
source's own comment says a hidden temp file is used to avoid
partial-file confusion, so this is a slip in the code. -/
theorem c5_code_bug_eval :
    prepareCombinedName "\x7bcmd\x7d_\x7bexit_code\x7d" "echo" "" "2024-01-02" "10-00-00"
        "1700000000" "host" "/tmp" true false Compress.none =
      ⟨"echo_NA.log", true, "echo_NA.log"⟩ ∧
    "echo_NA.log".data.head? ≠ some '.' := by
  constructor
  · decide
  · decide

/-- C6: a failed final rename is non-fatal — the run still reports the
child's true exit code and the original (un-renamed) file remains on
disk with its content intact. -/
theorem c6_rename_failure_nonfatal (fs : FS) (src dst : String) (status : Option Int)
    (content : String) (h : fsLookup fs src = some content) :
    (finalizeRun fs src dst false status).1 = childCode status ∧
    (finalizeRun fs src dst false status).2 = fs ∧
    fsLookup (finalizeRun fs src dst false status).2 src = some content :=
  ⟨rfl, rfl, h⟩

/-- Witness for C6: a concrete directory with the un-renamed log file. -/
theorem c6_witness :
    (finalizeRun [(".a.partial", "log body")] ".a.partial" "a_7.log" false (some 7)).1 =
      childCode (some 7) ∧
    (finalizeRun [(".a.partial", "log body")] ".a.partial" "a_7.log" false (some 7)).2 =
      [(".a.partial", "log body")] ∧
    fsLookup (finalizeRun [(".a.partial", "log body")] ".a.partial" "a_7.log" false
      (some 7)).2 ".a.partial" = some "log body" :=
  c6_rename_failure_nonfatal [(".a.partial", "log body")] ".a.partial" "a_7.log" (some 7)
    "log body" (by decide)

/-- C7 counterexample: a child that writes a single invalid-UTF-8 byte
sequence on stdout makes the pipe read fail (`next_line` reports
`InvalidData` and `line?` returns early), so the run fails and the line
is never dispatched — refuting that decoding is lenient and that the run
never fails because of invalid bytes. -/
theorem c7_counterexample :
    execLoop [Pick.out] ⟨[Item.bad], [], false, false⟩ = LoopRes.failed [] := by
  decide

/-- C7 (amended): a byte sequence that is not valid text causes the pipe
read to fail; the error unwinds out of the capture loop, which therefore
can never complete normally, and the invalid line is not written to any
sink. -/
theorem c7_amended (sched : List Pick) (outI errI : List Item)
    (h : Item.bad ∈ outI ∨ Item.bad ∈ errI) (evs : List (Tag × String)) :
    execLoop sched ⟨outI, errI, false, false⟩ ≠ LoopRes.done evs :=
  execLoop_bad_not_done sched outI errI false false (by intro hf; cases hf)
    (by intro hf; cases hf) h evs

/-- Witness for C7 (amended): one invalid line on stderr. -/
theorem c7_witness :
    execLoop [Pick.err] ⟨[], [Item.bad], false, false⟩ ≠ LoopRes.done [] :=
  c7_amended [Pick.err] [] [Item.bad] (Or.inr (by decide)) []

/-- C8: in both run modes, when the interleaving loop completes (both
pipes at end-of-stream), `child.wait()` appears exactly once in the run
trace and only after every dispatched line write, and the exit-code
trailer is written exactly once to every open sink, after the wait; the
positions after the wait hold no line write. -/
theorem c8_wait_trailer_order (sched : List Pick) (outI errI : List Item)
    (status : Option Int) (evs : List (Tag × String))
    (h : execLoop sched ⟨outI, errI, false, false⟩ = LoopRes.done evs) :
    ((combinedTrace sched outI errI status).countP isWait = 1 ∧
      (combinedTrace sched outI errI status).countP (isTrailer 0) = 1 ∧
      (combinedTrace sched outI errI status)[2 + evs.length]? = some Act.waitChild ∧
      (combinedTrace sched outI errI status)[3 + evs.length]? =
        some (Act.writeTrailer 0 (childCode status)) ∧
      (∀ k a, (combinedTrace sched outI errI status)[2 + evs.length + k]? = some a →
        isLineWrite a = false)) ∧
    ((splitTrace sched outI errI status).countP isWait = 1 ∧
      (splitTrace sched outI errI status).countP (isTrailer 0) = 1 ∧
      (splitTrace sched outI errI status).countP (isTrailer 1) = 1 ∧
      (splitTrace sched outI errI status)[3 + evs.length]? = some Act.waitChild ∧
      (∀ k a, (splitTrace sched outI errI status)[3 + evs.length + k]? = some a →
        isLineWrite a = false)) := by
  have hct : combinedTrace sched outI errI status =
      ([Act.writeHeader 0, Act.spawn] ++
          evs.map (fun e => Act.writeLine (combinedSink e.1) e.1 e.2)) ++
        [Act.waitChild, Act.writeTrailer 0 (childCode status), Act.flushSink 0] := by
    simp [combinedTrace, h]
  have hst : splitTrace sched outI errI status =
      ([Act.writeHeader 0, Act.writeHeader 1, Act.spawn] ++
          evs.map (fun e => Act.writeLine (splitSink e.1) e.1 e.2)) ++
        [Act.waitChild, Act.writeTrailer 0 (childCode status),
          Act.writeTrailer 1 (childCode status), Act.flushSink 0, Act.flushSink 1] := by
    simp [splitTrace, h]
  have hclen : ([Act.writeHeader 0, Act.spawn] ++
      evs.map (fun e => Act.writeLine (combinedSink e.1) e.1 e.2)).length = 2 + evs.length := by
    simp
    omega
  have hslen : ([Act.writeHeader 0, Act.writeHeader 1, Act.spawn] ++
      evs.map (fun e => Act.writeLine (splitSink e.1) e.1 e.2)).length = 3 + evs.length := by
    simp
    omega
  refine ⟨⟨?_, ?_, ?_, ?_, ?_⟩, ?_, ?_, ?_, ?_, ?_⟩
  · rw [hct, List.countP_append, List.countP_append,
      countP_lineMap_zero isWait (fun s t x => rfl) combinedSink]
    rfl
  · rw [hct, List.countP_append, List.countP_append,
      countP_lineMap_zero (isTrailer 0) (fun s t x => rfl) combinedSink]
    rfl
  · rw [hct, List.getElem?_append_right (by rw [hclen])]
    rw [hclen]
    simp
  · rw [hct, List.getElem?_append_right (by rw [hclen]; omega)]
    rw [hclen]
    have h3 : 3 + evs.length - (2 + evs.length) = 1 := by omega
    rw [h3]
    rfl
  · intro k a hk
    rw [hct, List.getElem?_append_right (by rw [hclen]; omega)] at hk
    rw [hclen] at hk
    have h3 : 2 + evs.length + k - (2 + evs.length) = k := by omega
    rw [h3] at hk
    rcases k with _ | _ | _ | k
    · cases hk
      rfl
    · cases hk
      rfl
    · cases hk
      rfl
    · simp at hk
  · rw [hst, List.countP_append, List.countP_append,
      countP_lineMap_zero isWait (fun s t x => rfl) splitSink]
    rfl
  · rw [hst, List.countP_append, List.countP_append,
      countP_lineMap_zero (isTrailer 0) (fun s t x => rfl) splitSink]
    rfl
  · rw [hst, List.countP_append, List.countP_append,
      countP_lineMap_zero (isTrailer 1) (fun s t x => by simp [isTrailer]) splitSink]
    rfl
  · rw [hst, List.getElem?_append_right (by rw [hslen])]
    rw [hslen]
    simp
  · intro k a hk
    rw [hst, List.getElem?_append_right (by rw [hslen]; omega)] at hk
    rw [hslen] at hk
    have h5 : 3 + evs.length + k - (3 + evs.length) = k := by omega
    rw [h5] at hk
    rcases k with _ | _ | _ | _ | _ | k
    · cases hk
      rfl
    · cases hk
      rfl
    · cases hk
      rfl
    · cases hk
      rfl
    · cases hk
      rfl
    · simp at hk

/-- Witness for C8: a concrete one-line run. -/
theorem c8_witness :
    (combinedTrace [Pick.out, Pick.err, Pick.out] [Item.good "hi"] [] (some 0)).countP
      isWait = 1 ∧
    (combinedTrace [Pick.out, Pick.err, Pick.out] [Item.good "hi"] [] (some 0))[3]? =
      some Act.waitChild ∧
    (splitTrace [Pick.out, Pick.err, Pick.out] [Item.good "hi"] [] (some 0)).countP
      (isTrailer 1) = 1 := by
  have h := c8_wait_trailer_order [Pick.out, Pick.err, Pick.out] [Item.good "hi"] []
    (some 0) [(Tag.stdout, "hi")] (by decide)
  exact ⟨h.1.1, h.1.2.2.1, h.2.2.2.1⟩

/-- C9: with gzip compression the compressor finish step has run by the
time the writer is released, and the decompressed content of the
compressed sink is byte-for-byte the content the plain sink produces for
the identical run (same header inputs, dispatched events, per-line
clock, formatting flags and exit code). -/
theorem c9_gzip_roundtrip (cmd args cwd date_s time_s host : String) (log_env : Bool)
    (envs : List (String × String)) (tsAt : Nat → String) (ts_each plain_lines : Bool)
    (evs : List (Tag × String)) (code : Int) :
    (runCombinedSink Compress.gz cmd args cwd date_s time_s host log_env envs tsAt
        ts_each plain_lines evs code).finished = true ∧
    readBack (runCombinedSink Compress.gz cmd args cwd date_s time_s host log_env envs tsAt
        ts_each plain_lines evs code).fileContent =
      some (runCombinedSink Compress.none cmd args cwd date_s time_s host log_env envs tsAt
        ts_each plain_lines evs code).buf ∧
    (runCombinedSink Compress.none cmd args cwd date_s time_s host log_env envs tsAt
        ts_each plain_lines evs code).fileContent =
      FileContent.plainFile (runCombinedSink Compress.none cmd args cwd date_s time_s host
        log_env envs tsAt ts_each plain_lines evs code).buf :=
  ⟨rfl, rfl, rfl⟩

/-- C10: any `--compress` value other than `gz`, `none` and the empty
string does not fail the run: the override yields the `none` policy
together with a warning message naming the unknown value. -/
theorem c10_unknown_compress (s : String)
    (h1 : s ≠ "gz") (h2 : s ≠ "none") (h3 : s ≠ "") :
    (parseCompressArg s).1 = Compress.none ∧
    (parseCompressArg s).2 =
      some ("Unknown --compress value '" ++ s ++ "', using 'none'") := by
  unfold parseCompressArg
  split
  · exact absurd rfl h1
  · exact absurd rfl h2
  · exact absurd rfl h3
  · exact ⟨rfl, rfl⟩

/-- Witness for C10 at the unknown value `zip`. -/
theorem c10_witness :
    (parseCompressArg "zip").1 = Compress.none ∧
    (parseCompressArg "zip").2 =
      some ("Unknown --compress value '" ++ "zip" ++ "', using 'none'") :=
  c10_unknown_compress "zip" (by decide) (by decide) (by decide)

end LG
